import Mathlib

/-!
# Verification of the face-verification utilities

Shallow embedding of the repository's Python code (a webcam face-verification
demo) and proofs about it.

Modelling conventions:

* Embedding vectors (`numpy` 1-D arrays of floats) are `List ℚ`.
* The Python dict `gallery_embeddings` is an association list
  `List (String × List ℚ)`; iteration order of a Python dict is insertion
  order, which the list order represents.
* `euclidean_distance` in the code returns `np.linalg.norm(e1 - e2)`, i.e.
  `√(Σ (e1ᵢ - e2ᵢ)²)`.  The square root is strictly monotone on `[0, ∞)` and
  the code only ever *compares* distances (against each other and against the
  threshold), so distances are modelled by their squares (`sq_distance`
  below) and the threshold by its square.  Lemma `sqrt_lt_sqrt_iff_of_nonneg`
  records the order isomorphism that justifies this encoding.
* `float('inf')`, the initial value of `min_distance`, is modelled by the
  dedicated constructor `DistV.inf`; finite distances are `DistV.val q`.
* Calls into third-party libraries (`cv2.resize`, the cascade's
  `detectMultiScale`, `model.predict`, `cv2.imread`, `cv2.VideoCapture`,
  TensorRT deserialisation) are parameters of the embedded functions: the
  repository's code treats them as black boxes and so do we.
-/

/-- Images as delivered by OpenCV: a matrix of `uint8` pixel values
(for the claims below the channel structure of a pixel is irrelevant for
preprocessing, so a pixel is a `ℕ`). -/
abbrev Img : Type := List (List ℕ)

/-- Preprocessed (normalised) images: a matrix of rational pixel values. -/
abbrev PImg : Type := List (List ℚ)

/-- A distance value as used by `identify_face`: either `float('inf')`
(the initial value of `min_distance`) or a finite squared distance. -/
inductive DistV : Type where
  | inf : DistV
  | val : ℚ → DistV
deriving DecidableEq, Repr

/-- Strict comparison of distance values; `inf` is greater than every
finite value and a comparison `inf < x` is always false. -/
def edLt : DistV → DistV → Bool
  | .inf, _ => false
  | .val _, .inf => true
  | .val a, .val b => decide (a < b)

/-- The squared Euclidean distance `Σ (e1ᵢ - e2ᵢ)²` between two embedding
vectors.  The code's `euclidean_distance` is `Real.sqrt` of this value; see
the module docstring for why distances are modelled by their squares. -/
def sq_distance (e1 e2 : List ℚ) : ℚ :=
  ((List.zipWith (fun a b => a - b) e1 e2).map (fun x => x * x)).sum

/-- `√` is strictly monotone on the nonnegatives: comparing the code's
Euclidean distances is the same as comparing the squared distances of the
model.  This justifies encoding distances by their squares. -/
theorem sqrt_lt_sqrt_iff_of_nonneg (a b : ℚ) (ha : 0 ≤ a) :
    Real.sqrt a < Real.sqrt b ↔ (a : ℝ) < b := by
  constructor
  · intro h
    by_contra hba
    push_neg at hba
    exact absurd (Real.sqrt_le_sqrt hba) (not_le.mpr h)
  · intro h
    exact (Real.sqrt_lt_sqrt (by exact_mod_cast ha) h)

/-- A squared distance is nonnegative, so the encoding covers every value the
code can produce. -/
theorem sq_distance_nonneg (e1 e2 : List ℚ) : 0 ≤ sq_distance e1 e2 := by
  unfold sq_distance
  induction List.zipWith (fun a b => a - b) e1 e2 with
  | nil => simp
  | cons x xs ih =>
    simp only [List.map_cons, List.sum_cons]
    exact add_nonneg (mul_self_nonneg x) ih

/-- The `for person_id, ref_embedding in gallery_embeddings.items():` loop of
`identify_face`: threads the accumulator `(identified_person, min_distance)`
through the remaining gallery entries, replacing it whenever the current
entry's distance is strictly smaller than the minimum so far. -/
def scanLoop (query : List ℚ) (acc : String × DistV) :
    List (String × List ℚ) → String × DistV
  | [] => acc
  | pr :: rest =>
      let d := sq_distance query pr.2
      scanLoop query (if edLt (.val d) acc.2 then (pr.1, .val d) else acc) rest

/-- `identify_face(query_embedding, gallery_embeddings, threshold)` from
`utils.py`: linear scan for the nearest gallery entry, then threshold test;
on `REJECT` the returned person id is overwritten with `"UNKNOWN"`. -/
def identify_face (query : List ℚ) (gallery : List (String × List ℚ))
    (threshold : ℚ) : String × DistV × String :=
  let scan := scanLoop query ("UNKNOWN", .inf) gallery
  let status := if edLt scan.2 (.val threshold) then "MATCH" else "REJECT"
  let pid := if status = "REJECT" then "UNKNOWN" else scan.1
  (pid, scan.2, status)

/-- Non-strict companion of `edLt`. -/
def edLe : DistV → DistV → Bool
  | _, .inf => true
  | .inf, .val _ => false
  | .val a, .val b => decide (a ≤ b)

theorem edLt_edLe {a b : DistV} (h : edLt a b = true) : edLe a b = true := by
  cases a <;> cases b <;> simp_all [edLt, edLe]
  exact le_of_lt h

theorem edLe_refl (a : DistV) : edLe a a = true := by
  cases a <;> simp [edLe]

theorem edLe_trans {a b c : DistV} (hab : edLe a b = true) (hbc : edLe b c = true) :
    edLe a c = true := by
  cases a <;> cases b <;> cases c <;> simp_all [edLe]
  exact le_trans hab hbc

theorem edLt_false_edLe {a b : DistV} (h : edLt a b = false) : edLe b a = true := by
  cases a <;> cases b <;> simp_all [edLt, edLe]

theorem scanLoop_cons (query : List ℚ) (acc : String × DistV)
    (pr : String × List ℚ) (rest : List (String × List ℚ)) :
    scanLoop query acc (pr :: rest)
      = scanLoop query
          (if edLt (DistV.val (sq_distance query pr.2)) acc.2
            then (pr.1, DistV.val (sq_distance query pr.2)) else acc) rest := rfl

/-- The scan result is either the initial accumulator or one of the gallery
entries, paired with that entry's distance. -/
theorem scanLoop_cases (query : List ℚ) :
    ∀ (g : List (String × List ℚ)) (acc : String × DistV),
      scanLoop query acc g = acc ∨
        ∃ pr ∈ g, scanLoop query acc g = (pr.1, DistV.val (sq_distance query pr.2)) := by
  intro g
  induction g with
  | nil => intro acc; exact Or.inl rfl
  | cons pr rest ih =>
    intro acc
    rw [scanLoop_cons]
    cases h : edLt (DistV.val (sq_distance query pr.2)) acc.2 with
    | false =>
      rw [if_neg (by simp [h])]
      rcases ih acc with h' | ⟨pr', hmem, h'⟩
      · exact Or.inl h'
      · exact Or.inr ⟨pr', List.mem_cons_of_mem _ hmem, h'⟩
    | true =>
      rw [if_pos (by simp [h])]
      rcases ih (pr.1, DistV.val (sq_distance query pr.2)) with h' | ⟨pr', hmem, h'⟩
      · exact Or.inr ⟨pr, List.mem_cons_self _ _, h'⟩
      · exact Or.inr ⟨pr', List.mem_cons_of_mem _ hmem, h'⟩

/-- The scan never increases `min_distance`. -/
theorem scanLoop_le_acc (query : List ℚ) :
    ∀ (g : List (String × List ℚ)) (acc : String × DistV),
      edLe (scanLoop query acc g).2 acc.2 = true := by
  intro g
  induction g with
  | nil => intro acc; exact edLe_refl _
  | cons pr rest ih =>
    intro acc
    rw [scanLoop_cons]
    cases h : edLt (DistV.val (sq_distance query pr.2)) acc.2 with
    | false =>
      rw [if_neg (by simp [h])]
      exact ih acc
    | true =>
      rw [if_pos (by simp [h])]
      exact edLe_trans (ih _) (edLt_edLe h)

/-- The final `min_distance` is a lower bound on the distance of every
gallery entry visited by the loop. -/
theorem scanLoop_le_mem (query : List ℚ) :
    ∀ (g : List (String × List ℚ)) (acc : String × DistV),
      ∀ pr ∈ g, edLe (scanLoop query acc g).2
        (DistV.val (sq_distance query pr.2)) = true := by
  intro g
  induction g with
  | nil => intro acc pr hpr; exact absurd hpr (List.not_mem_nil _)
  | cons hd rest ih =>
    intro acc pr hpr
    rw [scanLoop_cons]
    rcases List.mem_cons.mp hpr with heq | hmem
    · subst heq
      cases h : edLt (DistV.val (sq_distance query pr.2)) acc.2 with
      | false =>
        rw [if_neg (by simp [h])]
        exact edLe_trans (scanLoop_le_acc query rest acc) (edLt_false_edLe h)
      | true =>
        rw [if_pos (by simp [h])]
        exact scanLoop_le_acc query rest _
    · cases h : edLt (DistV.val (sq_distance query hd.2)) acc.2 with
      | false => rw [if_neg (by simp [h])]; exact ih acc pr hmem
      | true => rw [if_pos (by simp [h])]; exact ih _ pr hmem

/-- On a non-empty gallery, the scan produces a gallery entry whose distance
is minimal. -/
theorem scanLoop_min (query : List ℚ) (g : List (String × List ℚ)) (hg : g ≠ []) :
    ∃ pr ∈ g, scanLoop query ("UNKNOWN", DistV.inf) g
        = (pr.1, DistV.val (sq_distance query pr.2)) ∧
      ∀ pr' ∈ g, sq_distance query pr.2 ≤ sq_distance query pr'.2 := by
  obtain ⟨hd, rest, rfl⟩ := List.exists_cons_of_ne_nil hg
  rcases scanLoop_cases query (hd :: rest) ("UNKNOWN", DistV.inf) with h | ⟨pr, hmem, h⟩
  · have hle := scanLoop_le_mem query (hd :: rest) ("UNKNOWN", DistV.inf)
      hd (List.mem_cons_self _ _)
    rw [h] at hle
    simp [edLe] at hle
  · refine ⟨pr, hmem, h, ?_⟩
    intro pr' hmem'
    have hle := scanLoop_le_mem query (hd :: rest) ("UNKNOWN", DistV.inf) pr' hmem'
    rw [h] at hle
    simpa [edLe] using hle

/-- C8: on an empty gallery `identify_face` returns
`("UNKNOWN", float('inf'), "REJECT")` for every query and threshold, and in
particular never reports a match. -/
theorem identify_face_empty_gallery (query : List ℚ) (threshold : ℚ) :
    identify_face query [] threshold = ("UNKNOWN", DistV.inf, "REJECT") ∧
      (identify_face query [] threshold).2.2 ≠ "MATCH" := by
  refine ⟨rfl, ?_⟩
  intro h
  simp [identify_face, scanLoop, edLt] at h

theorem identify_face_snd_fst (query : List ℚ) (gallery : List (String × List ℚ))
    (threshold : ℚ) :
    (identify_face query gallery threshold).2.1
      = (scanLoop query ("UNKNOWN", DistV.inf) gallery).2 := rfl

theorem identify_face_status (query : List ℚ) (gallery : List (String × List ℚ))
    (threshold : ℚ) :
    (identify_face query gallery threshold).2.2
      = (if edLt (scanLoop query ("UNKNOWN", DistV.inf) gallery).2 (DistV.val threshold)
          then "MATCH" else "REJECT") := rfl

theorem identify_face_pid (query : List ℚ) (gallery : List (String × List ℚ))
    (threshold : ℚ) :
    (identify_face query gallery threshold).1
      = (if (identify_face query gallery threshold).2.2 = "REJECT"
          then "UNKNOWN" else (scanLoop query ("UNKNOWN", DistV.inf) gallery).1) := rfl

/-- The returned status is always one of `"MATCH"` and `"REJECT"`. -/
theorem identify_face_status_cases (query : List ℚ)
    (gallery : List (String × List ℚ)) (threshold : ℚ) :
    (identify_face query gallery threshold).2.2 = "MATCH" ∨
      (identify_face query gallery threshold).2.2 = "REJECT" := by
  rw [identify_face_status]
  cases edLt (scanLoop query ("UNKNOWN", DistV.inf) gallery).2 (DistV.val threshold) <;> simp

/-- On `"REJECT"` the returned person id is overwritten with `"UNKNOWN"`. -/
theorem identify_face_reject_unknown (query : List ℚ)
    (gallery : List (String × List ℚ)) (threshold : ℚ)
    (h : (identify_face query gallery threshold).2.2 = "REJECT") :
    (identify_face query gallery threshold).1 = "UNKNOWN" := by
  rw [identify_face_pid, h]
  simp

/-- On `"MATCH"` the returned person id is the person id of the scan result. -/
theorem identify_face_match_pid (query : List ℚ)
    (gallery : List (String × List ℚ)) (threshold : ℚ)
    (h : (identify_face query gallery threshold).2.2 = "MATCH") :
    (identify_face query gallery threshold).1
      = (scanLoop query ("UNKNOWN", DistV.inf) gallery).1 := by
  rw [identify_face_pid, h]
  simp

/-- On `"MATCH"` the scan found a genuine gallery entry (the accumulator was
updated at least once), so the returned person id is a gallery key. -/
theorem identify_face_match_mem (query : List ℚ)
    (gallery : List (String × List ℚ)) (threshold : ℚ)
    (h : (identify_face query gallery threshold).2.2 = "MATCH") :
    (identify_face query gallery threshold).1 ∈ gallery.map Prod.fst := by
  rcases scanLoop_cases query gallery ("UNKNOWN", DistV.inf) with hs | ⟨pr, hmem, hs⟩
  · rw [identify_face_status, hs] at h
    simp [edLt] at h
  · rw [identify_face_match_pid query gallery threshold h, hs]
    exact List.mem_map_of_mem Prod.fst hmem

/-- Without a gallery entry literally named `"UNKNOWN"`, the status is
`"MATCH"` exactly when the returned person id is not `"UNKNOWN"`. -/
theorem identify_face_match_iff (query : List ℚ)
    (gallery : List (String × List ℚ)) (threshold : ℚ)
    (hkey : "UNKNOWN" ∉ gallery.map Prod.fst) :
    ((identify_face query gallery threshold).2.2 = "MATCH" ↔
      (identify_face query gallery threshold).1 ≠ "UNKNOWN") := by
  constructor
  · intro h hpid
    exact hkey (hpid ▸ identify_face_match_mem query gallery threshold h)
  · intro h
    rcases identify_face_status_cases query gallery threshold with hs | hs
    · exact hs
    · exact absurd (identify_face_reject_unknown query gallery threshold hs) h

/-- C1: on a non-empty gallery, `identify_face` performs a linear scan and
returns the minimum (squared) distance to the gallery together with a person
id attaining it; the status is `"MATCH"` iff that minimum is strictly below
the threshold, and on `"REJECT"` the person id is `"UNKNOWN"`. -/
theorem identify_face_nearest (query : List ℚ)
    (gallery : List (String × List ℚ)) (threshold : ℚ) (hg : gallery ≠ []) :
    ∃ m : ℚ,
      (identify_face query gallery threshold).2.1 = DistV.val m ∧
      (∃ pr ∈ gallery, sq_distance query pr.2 = m) ∧
      (∀ pr ∈ gallery, m ≤ sq_distance query pr.2) ∧
      ((identify_face query gallery threshold).2.2 = "MATCH" ↔ m < threshold) ∧
      ((identify_face query gallery threshold).2.2 = "MATCH" →
        ∃ pr ∈ gallery, (identify_face query gallery threshold).1 = pr.1 ∧
          sq_distance query pr.2 = m) ∧
      ((identify_face query gallery threshold).2.2 = "REJECT" →
        (identify_face query gallery threshold).1 = "UNKNOWN") := by
  obtain ⟨pr, hmem, hscan, hmin⟩ := scanLoop_min query gallery hg
  refine ⟨sq_distance query pr.2, ?_, ⟨pr, hmem, rfl⟩, hmin, ?_, ?_,
    identify_face_reject_unknown query gallery threshold⟩
  · rw [identify_face_snd_fst, hscan]
  · rw [identify_face_status, hscan]
    by_cases hlt : sq_distance query pr.2 < threshold
    · simp [edLt, hlt]
    · simp [edLt, hlt]
  · intro h
    refine ⟨pr, hmem, ?_, rfl⟩
    rw [identify_face_match_pid query gallery threshold h, hscan]

/-- Concrete instantiation of `identify_face_nearest` on a two-person
gallery. -/
theorem identify_face_nearest_witness :
    ([("alice", [(0 : ℚ), 0]), ("bob", [3, 4])] : List (String × List ℚ)) ≠ [] ∧
      (∃ m : ℚ,
        (identify_face [1, 1] [("alice", [(0 : ℚ), 0]), ("bob", [3, 4])] 3).2.1 = DistV.val m ∧
        (∃ pr ∈ [("alice", [(0 : ℚ), 0]), ("bob", [3, 4])], sq_distance [1, 1] pr.2 = m) ∧
        (∀ pr ∈ [("alice", [(0 : ℚ), 0]), ("bob", [3, 4])], m ≤ sq_distance [1, 1] pr.2) ∧
        ((identify_face [1, 1] [("alice", [(0 : ℚ), 0]), ("bob", [3, 4])] 3).2.2 = "MATCH" ↔ m < 3) ∧
        ((identify_face [1, 1] [("alice", [(0 : ℚ), 0]), ("bob", [3, 4])] 3).2.2 = "MATCH" →
          ∃ pr ∈ [("alice", [(0 : ℚ), 0]), ("bob", [3, 4])],
            (identify_face [1, 1] [("alice", [(0 : ℚ), 0]), ("bob", [3, 4])] 3).1 = pr.1 ∧
              sq_distance [1, 1] pr.2 = m) ∧
        ((identify_face [1, 1] [("alice", [(0 : ℚ), 0]), ("bob", [3, 4])] 3).2.2 = "REJECT" →
          (identify_face [1, 1] [("alice", [(0 : ℚ), 0]), ("bob", [3, 4])] 3).1 = "UNKNOWN")) :=
  ⟨by decide, identify_face_nearest [1, 1] [("alice", [(0 : ℚ), 0]), ("bob", [3, 4])] 3 (by decide)⟩

/-- `preprocess_image(img, img_size)` from `utils.py`: `None` propagates,
otherwise the image is resized by `cv2.resize(img, (img_size, img_size))`
(the library call is the parameter `resize`) and every `uint8` pixel is
divided by `255.0`. -/
def preprocess_image (resize : Img → ℕ → Img) (img : Option Img)
    (img_size : ℕ) : Option PImg :=
  match img with
  | none => none
  | some im =>
      let img_resized := resize im img_size
      let img_normalized := img_resized.map (fun row => row.map (fun (p : ℕ) => (p : ℚ) / 255))
      some img_normalized

/-- `identify_face_from_frame(face_img, model, gallery_embeddings, threshold,
img_size)` from `utils.py`.  `predict` stands for
`lambda im: model.predict(np.expand_dims(im, axis=0), verbose=0)[0]`, the
embedding of a single preprocessed image. -/
def identify_face_from_frame (resize : Img → ℕ → Img) (predict : PImg → List ℚ)
    (face_img : Option Img) (gallery : List (String × List ℚ))
    (threshold : ℚ) (img_size : ℕ) : String × DistV × String :=
  match preprocess_image resize face_img img_size with
  | none => ("UNKNOWN", DistV.inf, "REJECT")
  | some face_processed => identify_face (predict face_processed) gallery threshold

/-- C9 refuted as stated: with a gallery whose only key is the literal string
`"UNKNOWN"` and a query at distance `0 < threshold`, `identify_face` returns
status `"MATCH"` with person id `"UNKNOWN"`, so "`MATCH` iff the person id is
not `UNKNOWN`" fails. -/
theorem identify_face_status_iff_cex :
    (identify_face [0] [("UNKNOWN", [0])] 1).2.2 = "MATCH" ∧
      (identify_face [0] [("UNKNOWN", [0])] 1).1 = "UNKNOWN" := by
  have hd : sq_distance [0] [0] = 0 := by
    simp [sq_distance]
  constructor <;> norm_num [identify_face, scanLoop, hd, edLt]

/-- C9 (amended: the equivalence requires that no gallery key is the literal
string `"UNKNOWN"`): the status is `"MATCH"` iff the returned person id is
not `"UNKNOWN"`; on `"MATCH"` the person id is a gallery key (this part holds
unconditionally); `identify_face_from_frame` satisfies the same equivalence
and returns `("UNKNOWN", inf, "REJECT")` whenever preprocessing yields
`None`. -/
theorem identify_face_status_characterisation (query : List ℚ)
    (gallery : List (String × List ℚ)) (threshold : ℚ)
    (hkey : "UNKNOWN" ∉ gallery.map Prod.fst) :
    ((identify_face query gallery threshold).2.2 = "MATCH" ↔
      (identify_face query gallery threshold).1 ≠ "UNKNOWN") ∧
    ((identify_face query gallery threshold).2.2 = "MATCH" →
      (identify_face query gallery threshold).1 ∈ gallery.map Prod.fst) ∧
    (∀ (resize : Img → ℕ → Img) (predict : PImg → List ℚ)
        (face_img : Option Img) (img_size : ℕ),
      ((identify_face_from_frame resize predict face_img gallery threshold
          img_size).2.2 = "MATCH" ↔
        (identify_face_from_frame resize predict face_img gallery threshold
          img_size).1 ≠ "UNKNOWN") ∧
      ((identify_face_from_frame resize predict face_img gallery threshold
          img_size).2.2 = "MATCH" →
        (identify_face_from_frame resize predict face_img gallery threshold
          img_size).1 ∈ gallery.map Prod.fst) ∧
      (preprocess_image resize face_img img_size = none →
        identify_face_from_frame resize predict face_img gallery threshold
          img_size = ("UNKNOWN", DistV.inf, "REJECT"))) := by
  refine ⟨identify_face_match_iff query gallery threshold hkey,
    identify_face_match_mem query gallery threshold, ?_⟩
  intro resize predict face_img img_size
  cases hpre : preprocess_image resize face_img img_size with
  | none =>
    have hff : identify_face_from_frame resize predict face_img gallery threshold
        img_size = ("UNKNOWN", DistV.inf, "REJECT") := by
      unfold identify_face_from_frame
      rw [hpre]
    rw [hff]
    refine ⟨⟨fun h => absurd h (by decide), fun h => absurd rfl h⟩,
      fun h => absurd h (by decide), fun _ => rfl⟩
  | some face_processed =>
    have hff : identify_face_from_frame resize predict face_img gallery threshold
        img_size = identify_face (predict face_processed) gallery threshold := by
      unfold identify_face_from_frame
      rw [hpre]
    rw [hff]
    exact ⟨identify_face_match_iff _ gallery threshold hkey,
      identify_face_match_mem _ gallery threshold,
      fun hnone => Option.noConfusion hnone⟩

/-- Concrete instantiation of `identify_face_status_characterisation` on a
one-person gallery. -/
theorem identify_face_status_characterisation_witness :
    ("UNKNOWN" ∉ ([("alice", [(0 : ℚ)])] : List (String × List ℚ)).map Prod.fst) ∧
      ((identify_face [0] [("alice", [(0 : ℚ)])] 1).2.2 = "MATCH" ↔
        (identify_face [0] [("alice", [(0 : ℚ)])] 1).1 ≠ "UNKNOWN") :=
  ⟨by decide,
    (identify_face_status_characterisation [0] [("alice", [(0 : ℚ)])] 1 (by decide)).1⟩

/-- Componentwise vector addition (numpy broadcasting on equal-length 1-D
arrays). -/
def vecAdd (a b : List ℚ) : List ℚ := List.zipWith (fun x y => x + y) a b

/-- `np.mean(embeddings, axis=0)`: componentwise sum divided by the number of
vectors. -/
def vecMean (l : List (List ℚ)) : List ℚ :=
  match l with
  | [] => []
  | v :: vs => (vs.foldl vecAdd v).map (fun x => x / (l.length : ℚ))

/-- Python dict lookup on the association-list model. -/
def dictLookup {κ α : Type} [DecidableEq κ] (k : κ) : List (κ × α) → Option α
  | [] => none
  | (k', v) :: rest => if k' = k then some v else dictLookup k rest

/-- `build_gallery_embeddings(model, image_paths_dict, img_size)` from
`utils.py`: one iteration of its `for person_id, paths in
image_paths_dict.items():` loop.  `load_image` stands for the code's
`load_image(path, img_size)` (a `cv2.imread`+preprocess pipeline that
returns `None` on failure) and `predict` for
`lambda im: model.predict(np.expand_dims(im, axis=0), verbose=0)[0]`.
A person is added to the gallery only when at least one of its images
loaded (`if embeddings:`). -/
def buildStep (predict : PImg → List ℚ) (load_image : String → Option PImg)
    (gallery_embeddings : List (String × List ℚ)) (pr : String × List String) :
    List (String × List ℚ) :=
  let embeddings := pr.2.filterMap (fun path => (load_image path).map predict)
  if embeddings.isEmpty then gallery_embeddings
  else gallery_embeddings ++ [(pr.1, vecMean embeddings)]

/-- `build_gallery_embeddings` itself: fold the loop body over the dict. -/
def build_gallery_embeddings (predict : PImg → List ℚ)
    (load_image : String → Option PImg)
    (image_paths_dict : List (String × List String)) : List (String × List ℚ) :=
  image_paths_dict.foldl (buildStep predict load_image) []

/-- The gallery entry contributed by one `image_paths_dict` item. -/
def galleryEntry (predict : PImg → List ℚ) (load_image : String → Option PImg)
    (pr : String × List String) : Option (String × List ℚ) :=
  let embeddings := pr.2.filterMap (fun path => (load_image path).map predict)
  if embeddings.isEmpty then none else some (pr.1, vecMean embeddings)

theorem buildStep_eq (predict : PImg → List ℚ) (load_image : String → Option PImg)
    (acc : List (String × List ℚ)) (pr : String × List String) :
    buildStep predict load_image acc pr
      = acc ++ (galleryEntry predict load_image pr).toList := by
  simp only [buildStep, galleryEntry]
  cases hE : (pr.2.filterMap (fun path => (load_image path).map predict)).isEmpty with
  | true => simp
  | false => simp [Option.toList]

theorem build_gallery_embeddings_eq_filterMap (predict : PImg → List ℚ)
    (load_image : String → Option PImg) (d : List (String × List String)) :
    build_gallery_embeddings predict load_image d
      = d.filterMap (galleryEntry predict load_image) := by
  have key : ∀ (d : List (String × List String)) (acc : List (String × List ℚ)),
      d.foldl (buildStep predict load_image) acc
        = acc ++ d.filterMap (galleryEntry predict load_image) := by
    intro d
    induction d with
    | nil => intro acc; simp
    | cons pr rest ih =>
      intro acc
      rw [List.foldl_cons, buildStep_eq, ih, List.filterMap_cons]
      cases galleryEntry predict load_image pr with
      | none => simp
      | some e => simp
  exact key d []

theorem dictLookup_cons {κ α : Type} [DecidableEq κ] (k : κ) (e : κ × α)
    (l : List (κ × α)) :
    dictLookup k (e :: l) = if e.1 = k then some e.2 else dictLookup k l := by
  cases e
  rfl

theorem dictLookup_eq_none_of_not_mem {κ α : Type} [DecidableEq κ] (k : κ) :
    ∀ l : List (κ × α), k ∉ l.map Prod.fst → dictLookup k l = none := by
  intro l
  induction l with
  | nil => intro _; rfl
  | cons e rest ih =>
    intro h
    rw [List.map_cons, List.mem_cons] at h
    push_neg at h
    rw [dictLookup_cons, if_neg (fun hc => h.1 hc.symm)]
    exact ih h.2

theorem galleryEntry_key (predict : PImg → List ℚ)
    (load_image : String → Option PImg) (pr : String × List String)
    (e : String × List ℚ) (h : galleryEntry predict load_image pr = some e) :
    e.1 = pr.1 := by
  simp only [galleryEntry] at h
  by_cases hE : (pr.2.filterMap (fun path => (load_image path).map predict)).isEmpty = true
  · rw [if_pos hE] at h
    exact Option.noConfusion h
  · rw [if_neg hE] at h
    rw [← Option.some.inj h]

theorem galleryEntry_keys_sub (predict : PImg → List ℚ)
    (load_image : String → Option PImg) :
    ∀ (d : List (String × List String)) (k : String),
      k ∈ (d.filterMap (galleryEntry predict load_image)).map Prod.fst →
        k ∈ d.map Prod.fst := by
  intro d
  induction d with
  | nil => intro k h; simp at h
  | cons hd rest ih =>
    intro k h
    rw [List.filterMap_cons] at h
    cases hG : galleryEntry predict load_image hd with
    | none =>
      rw [hG] at h
      exact List.mem_cons_of_mem _ (ih k h)
    | some e =>
      rw [hG] at h
      rw [List.map_cons, List.mem_cons] at h
      rcases h with rfl | h
      · rw [List.map_cons]
        exact (galleryEntry_key predict load_image hd e hG) ▸ List.mem_cons_self _ _
      · exact List.mem_cons_of_mem _ (ih k h)

/-- With distinct dict keys (true of any Python dict), looking up a person in
the built gallery gives exactly that person's entry. -/
theorem dictLookup_build (predict : PImg → List ℚ)
    (load_image : String → Option PImg) :
    ∀ d : List (String × List String), (d.map Prod.fst).Nodup →
      ∀ pr ∈ d,
        dictLookup pr.1 (d.filterMap (galleryEntry predict load_image))
          = (galleryEntry predict load_image pr).map Prod.snd := by
  intro d
  induction d with
  | nil => intro _ pr h; exact absurd h (List.not_mem_nil _)
  | cons hd rest ih =>
    intro hnd pr hpr
    rw [List.map_cons, List.nodup_cons] at hnd
    rw [List.filterMap_cons]
    rcases List.mem_cons.mp hpr with rfl | hmem
    · cases hG : galleryEntry predict load_image pr with
      | none =>
        refine (dictLookup_eq_none_of_not_mem pr.1 _ ?_).trans rfl
        exact fun hc => hnd.1 (galleryEntry_keys_sub predict load_image rest pr.1 hc)
      | some e =>
        rw [dictLookup_cons, if_pos (galleryEntry_key predict load_image pr e hG)]
        rfl
    · have hne : hd.1 ≠ pr.1 :=
        fun h => hnd.1 (h ▸ List.mem_map_of_mem Prod.fst hmem)
      cases hG : galleryEntry predict load_image hd with
      | none => exact ih hnd.2 pr hmem
      | some e =>
        rw [dictLookup_cons,
          if_neg ((galleryEntry_key predict load_image hd e hG) ▸ hne)]
        exact ih hnd.2 pr hmem

theorem vecAdd_length (a b : List ℚ) (h : a.length = b.length) :
    (vecAdd a b).length = a.length := by
  simp [vecAdd, h]

theorem getD_vecAdd :
    ∀ (a b : List ℚ) (j : ℕ), j < a.length → a.length = b.length →
      (vecAdd a b).getD j 0 = a.getD j 0 + b.getD j 0 := by
  intro a
  induction a with
  | nil => intro b j hj _; simp at hj
  | cons x xs ih =>
    intro b j hj hlen
    cases b with
    | nil => simp at hlen
    | cons y ys =>
      cases j with
      | zero => simp [vecAdd]
      | succ j =>
        have h1 : j < xs.length := by
          simpa [Nat.succ_lt_succ_iff] using hj
        have h2 : xs.length = ys.length := by
          simpa using hlen
        simpa [vecAdd] using ih ys j h1 h2

theorem foldl_vecAdd_spec (D : ℕ) :
    ∀ (l : List (List ℚ)) (acc : List ℚ), (∀ v ∈ l, v.length = D) →
      acc.length = D →
      (l.foldl vecAdd acc).length = D ∧
        ∀ j, j < D → (l.foldl vecAdd acc).getD j 0
          = acc.getD j 0 + (l.map (fun v => v.getD j 0)).sum := by
  intro l
  induction l with
  | nil => intro acc _ hacc; exact ⟨hacc, fun j _ => by simp⟩
  | cons v vs ih =>
    intro acc hl hacc
    have hv : v.length = D := hl v (List.mem_cons_self _ _)
    have hacc' : (vecAdd acc v).length = D := by
      rw [vecAdd_length acc v (hacc.trans hv.symm)]
      exact hacc
    obtain ⟨hlen, hget⟩ := ih (vecAdd acc v)
      (fun w hw => hl w (List.mem_cons_of_mem _ hw)) hacc'
    refine ⟨hlen, fun j hj => ?_⟩
    rw [List.foldl_cons, hget j hj,
      getD_vecAdd acc v j (hacc ▸ hj) (hacc.trans hv.symm)]
    simp [add_assoc]

theorem getD_map_div :
    ∀ (l : List ℚ) (c : ℚ) (j : ℕ), j < l.length →
      (l.map (fun x => x / c)).getD j 0 = l.getD j 0 / c := by
  intro l
  induction l with
  | nil => intro c j hj; simp at hj
  | cons x xs ih =>
    intro c j hj
    cases j with
    | zero => simp
    | succ j =>
      have h1 : j < xs.length := by
        simpa [Nat.succ_lt_succ_iff] using hj
      simpa using ih c j h1

/-- `np.mean` really is the componentwise arithmetic mean: component `j` of
`vecMean l` is the sum of the `j`-th components divided by the number of
vectors. -/
theorem vecMean_spec (D : ℕ) (l : List (List ℚ)) (hne : l ≠ [])
    (hl : ∀ v ∈ l, v.length = D) :
    (vecMean l).length = D ∧
      ∀ j, j < D → (vecMean l).getD j 0
        = (l.map (fun v => v.getD j 0)).sum / (l.length : ℚ) := by
  obtain ⟨v, vs, rfl⟩ := List.exists_cons_of_ne_nil hne
  have hv : v.length = D := hl v (List.mem_cons_self _ _)
  obtain ⟨hlen, hget⟩ := foldl_vecAdd_spec D vs v
    (fun w hw => hl w (List.mem_cons_of_mem _ hw)) hv
  constructor
  · simp only [vecMean, List.length_map]
    exact hlen
  · intro j hj
    simp only [vecMean]
    rw [getD_map_div _ _ j (hlen ▸ hj), hget j hj]
    simp

/-- C2: in the built gallery, every person id with at least one loadable
image maps to the componentwise arithmetic mean of the embeddings of its
loadable images, and every person id all of whose images fail to load is
absent.  `D` is the (fixed) embedding dimension of the model. -/
theorem build_gallery_embeddings_spec (predict : PImg → List ℚ)
    (load_image : String → Option PImg) (d : List (String × List String))
    (D : ℕ) (hnd : (d.map Prod.fst).Nodup)
    (hD : ∀ im, (predict im).length = D)
    (pr : String × List String) (hmem : pr ∈ d) :
    ((∀ path ∈ pr.2, load_image path = none) →
      dictLookup pr.1 (build_gallery_embeddings predict load_image d) = none) ∧
    ((∃ path ∈ pr.2, load_image path ≠ none) →
      ∃ m : List ℚ,
        dictLookup pr.1 (build_gallery_embeddings predict load_image d) = some m ∧
        m.length = D ∧
        ∀ j, j < D →
          m.getD j 0
            = ((pr.2.filterMap (fun path => (load_image path).map predict)).map
                (fun v => v.getD j 0)).sum
              / ((pr.2.filterMap (fun path => (load_image path).map predict)).length : ℚ)) := by
  have hlook := dictLookup_build predict load_image d hnd pr hmem
  rw [build_gallery_embeddings_eq_filterMap, hlook]
  constructor
  · intro hall
    have hembs : pr.2.filterMap (fun path => (load_image path).map predict) = [] := by
      rw [List.filterMap_eq_nil_iff]
      intro path hpath
      rw [hall path hpath]
      rfl
    have hG : galleryEntry predict load_image pr = none := by
      simp only [galleryEntry, hembs]
      rfl
    rw [hG]
    rfl
  · intro hsome
    obtain ⟨path, hpath, hload⟩ := hsome
    obtain ⟨im, him⟩ := Option.ne_none_iff_exists'.mp hload
    have hin : predict im ∈ pr.2.filterMap (fun p => (load_image p).map predict) :=
      List.mem_filterMap.mpr ⟨path, hpath, by rw [him]; rfl⟩
    have hembs : pr.2.filterMap (fun p => (load_image p).map predict) ≠ [] :=
      List.ne_nil_of_mem hin
    have hvlens : ∀ v ∈ pr.2.filterMap (fun p => (load_image p).map predict),
        v.length = D := by
      intro v hv
      obtain ⟨p, _, hp⟩ := List.mem_filterMap.mp hv
      cases hl : load_image p with
      | none => rw [hl] at hp; exact Option.noConfusion hp
      | some im' =>
        rw [hl] at hp
        rw [← Option.some.inj hp]
        exact hD im'
    have hG : galleryEntry predict load_image pr
        = some (pr.1, vecMean (pr.2.filterMap (fun p => (load_image p).map predict))) := by
      simp only [galleryEntry]
      rw [if_neg (fun hc => hembs (List.isEmpty_iff.mp hc))]
    rw [hG]
    obtain ⟨hlen, hget⟩ := vecMean_spec D _ hembs hvlens
    exact ⟨vecMean (pr.2.filterMap (fun p => (load_image p).map predict)),
      rfl, hlen, hget⟩

/-- A two-pixel-embedding stand-in for the model, used by witnesses. -/
def demoPredict : PImg → List ℚ := fun _ => [1, 2]

/-- A loader that fails exactly on the path `"bad"`, used by witnesses. -/
def demoLoad : String → Option PImg := fun p => if p = "bad" then none else some [[1]]

/-- A two-person image dict, used by witnesses. -/
def demoDict : List (String × List String) := [("alice", ["a", "bad"]), ("bob", ["bad"])]

/-- Concrete instantiation of `build_gallery_embeddings_spec`: a gallery dict
with one loadable person and one unloadable person. -/
theorem build_gallery_embeddings_spec_witness :
    ((demoDict.map Prod.fst).Nodup) ∧
    (((∀ path ∈ ["a", "bad"], demoLoad path = none) →
        dictLookup "alice" (build_gallery_embeddings demoPredict demoLoad demoDict) = none) ∧
      ((∃ path ∈ ["a", "bad"], demoLoad path ≠ none) →
        ∃ m : List ℚ,
          dictLookup "alice" (build_gallery_embeddings demoPredict demoLoad demoDict)
              = some m ∧
            m.length = 2 ∧
            ∀ j, j < 2 →
              m.getD j 0
                = ((["a", "bad"].filterMap
                      (fun path => (demoLoad path).map demoPredict)).map
                    (fun v => v.getD j 0)).sum
                  / ((["a", "bad"].filterMap
                      (fun path => (demoLoad path).map demoPredict)).length : ℚ))) :=
  ⟨by decide,
    build_gallery_embeddings_spec demoPredict demoLoad demoDict 2 (by decide)
      (fun _ => rfl) ("alice", ["a", "bad"]) (by decide)⟩

/-- Python `str.lower()` on a filename (modelled as a list of characters). -/
def pyLower (s : List Char) : List Char := s.map Char.toLower

/-- `filename.lower().endswith(('.jpg', '.jpeg', '.png'))`. -/
def isImageFile (filename : List Char) : Bool :=
  List.isSuffixOf ".jpg".data (pyLower filename) ||
    List.isSuffixOf ".jpeg".data (pyLower filename) ||
      List.isSuffixOf ".png".data (pyLower filename)

/-- Does `s` start with `pattern`?  (Python `str.startswith`, used to model
substring search.) -/
def startsWith : List Char → List Char → Bool
  | [], _ => true
  | _ :: _, [] => false
  | p :: ps, c :: cs => decide (p = c) && startsWith ps cs

/-- Python `pattern in filename`: some tail of `filename` starts with
`pattern`. -/
def containsPat (pattern : List Char) : List Char → Bool
  | [] => startsWith pattern []
  | c :: rest => startsWith pattern (c :: rest) || containsPat pattern rest

/-- Python `filename.split(pattern)[0]`: the prefix of `filename` before the
first occurrence of `pattern`. -/
def splitHead (pattern : List Char) : List Char → List Char
  | [] => []
  | c :: rest =>
      if startsWith pattern (c :: rest) then [] else c :: splitHead pattern rest

/-- `os.path.splitext(filename)[0]` for a path without directory separators
(the inputs come from `os.listdir`): cut at the last dot, except that a name
whose characters before the last dot are all dots (e.g. `".jpg"`) has no
extension and is returned whole — exactly CPython's `genericpath._splitext`. -/
def splitextRoot (s : List Char) : List Char :=
  if '.' ∈ s then
    let ext_len := (s.reverse.takeWhile (fun c => c ≠ '.')).length
    let root := s.take (s.length - ext_len - 1)
    if root.any (fun c => c ≠ '.') then root else s
  else s

/-- The person id `index_images_by_person` assigns to a filename:
`filename.split(pattern)[0]` if the pattern occurs in the name, else
`os.path.splitext(filename)[0]`. -/
def personId (pattern filename : List Char) : List Char :=
  if containsPat pattern filename then splitHead pattern filename
  else splitextRoot filename

/-- `os.path.join(image_dir, filename)`.  `os.listdir` names contain no
separator and are not absolute, so the join is a plain concatenation (when
`image_dir` itself ends in a separator CPython omits the extra one, which
only changes the constant prefix and none of the claims below). -/
def pathJoin (dir name : List Char) : List Char := dir ++ '/' :: name

/-- The dict-update
`images_by_person.setdefault(person_id, []).append(full_path)` pattern of the
code: append to an existing key's list in place, or add a new key at the end
(Python dicts preserve insertion order). -/
def insertAppend {κ α : Type} [DecidableEq κ] :
    List (κ × List α) → κ → α → List (κ × List α)
  | [], k, v => [(k, [v])]
  | (k', vs) :: rest, k, v =>
      if k' = k then (k', vs ++ [v]) :: rest else (k', vs) :: insertAppend rest k v

/-- One iteration of the `for filename in os.listdir(image_dir):` loop of
`index_images_by_person`. -/
def indexStep (image_dir pattern : List Char)
    (images_by_person : List (List Char × List (List Char)))
    (filename : List Char) : List (List Char × List (List Char)) :=
  if isImageFile filename then
    insertAppend images_by_person (personId pattern filename)
      (pathJoin image_dir filename)
  else images_by_person

/-- `index_images_by_person(image_dir, pattern)` from `utils.py`.  `listing`
models the file system: `none` when `os.path.exists(image_dir)` is false,
`some files` for the `os.listdir(image_dir)` result. -/
def index_images_by_person (image_dir : List Char)
    (listing : Option (List (List Char))) (pattern : List Char) :
    List (List Char × List (List Char)) :=
  match listing with
  | none => []
  | some files => files.foldl (indexStep image_dir pattern) []

/-- Specification of one bucket of the result: the joined paths of the image
files assigned to person `k`, in listing order. -/
def bucketSpec (image_dir pattern : List Char) (files : List (List Char))
    (k : List Char) : List (List Char) :=
  (files.filter (fun f => isImageFile f && decide (personId pattern f = k))).map
    (pathJoin image_dir)

theorem startsWith_iff : ∀ p s : List Char, startsWith p s = true ↔ ∃ t, s = p ++ t := by
  intro p
  induction p with
  | nil =>
    intro s
    exact ⟨fun _ => ⟨s, rfl⟩, fun _ => rfl⟩
  | cons a ps ih =>
    intro s
    cases s with
    | nil =>
      constructor
      · intro h
        exact absurd h (by simp [startsWith])
      · rintro ⟨t, ht⟩
        exact absurd ht (by simp)
    | cons c cs =>
      simp only [startsWith, Bool.and_eq_true, decide_eq_true_eq, ih]
      constructor
      · rintro ⟨rfl, t, rfl⟩
        exact ⟨t, rfl⟩
      · rintro ⟨t, ht⟩
        injection ht with h1 h2
        exact ⟨h1.symm, t, h2⟩

theorem splitHead_decomp (pattern : List Char) :
    ∀ f, containsPat pattern f = true →
      ∃ rest, f = splitHead pattern f ++ pattern ++ rest := by
  intro f
  induction f with
  | nil =>
    intro h
    obtain ⟨t, ht⟩ := (startsWith_iff pattern []).mp h
    obtain ⟨h1, h2⟩ := List.append_eq_nil.mp ht.symm
    exact ⟨[], by simp [splitHead, h1, h2]⟩
  | cons c rest ih =>
    intro h
    by_cases hs : startsWith pattern (c :: rest) = true
    · obtain ⟨t, ht⟩ := (startsWith_iff _ _).mp hs
      refine ⟨t, ?_⟩
      simp only [splitHead, if_pos hs, List.nil_append]
      exact ht
    · have h' : containsPat pattern rest = true := by
        have : containsPat pattern (c :: rest)
            = (startsWith pattern (c :: rest) || containsPat pattern rest) := rfl
        rw [this] at h
        simpa [hs] using h
      obtain ⟨r, hr⟩ := ih h'
      refine ⟨r, ?_⟩
      simp only [splitHead, if_neg hs, List.cons_append]
      exact congrArg (c :: ·) hr

theorem splitHead_min (pattern : List Char) :
    ∀ f t₁ t₂, f = t₁ ++ pattern ++ t₂ →
      (splitHead pattern f).length ≤ t₁.length := by
  intro f
  induction f with
  | nil => intro t₁ t₂ _; simp [splitHead]
  | cons c rest ih =>
    intro t₁ t₂ h
    by_cases hs : startsWith pattern (c :: rest) = true
    · simp [splitHead, hs]
    · cases t₁ with
      | nil =>
        exact absurd ((startsWith_iff _ _).mpr ⟨t₂, by simpa using h⟩) hs
      | cons a t₁' =>
        rw [List.cons_append, List.cons_append] at h
        injection h with h1 h2
        simp only [splitHead, if_neg hs, List.length_cons]
        exact Nat.succ_le_succ (ih t₁' t₂ (by simpa using h2))

theorem takeWhile_eq_of_forall {α : Type} (p : α → Bool) :
    ∀ (x : List α) (a : α) (y : List α), (∀ c ∈ x, p c = true) → p a = false →
      (x ++ a :: y).takeWhile p = x := by
  intro x
  induction x with
  | nil =>
    intro a y _ ha
    simp [List.takeWhile_cons, ha]
  | cons b x' ih =>
    intro a y hx ha
    have hb : p b = true := hx b (List.mem_cons_self _ _)
    simp only [List.cons_append, List.takeWhile_cons, hb, if_true]
    exact congrArg (b :: ·) (ih a y (fun c hc => hx c (List.mem_cons_of_mem _ hc)) ha)

theorem splitextRoot_no_dot (f : List Char) (h : '.' ∉ f) : splitextRoot f = f := by
  simp [splitextRoot, h]

/-- `splitextRoot` computed on the (unique) last-dot decomposition
`f = a ++ '.' :: b`, `'.' ∉ b`: the root is `a` when `a` has a character
other than `'.'`, and the whole name otherwise. -/
theorem splitextRoot_spec (f a b : List Char) (hf : f = a ++ '.' :: b)
    (hb : '.' ∉ b) :
    ((∃ c ∈ a, c ≠ '.') → splitextRoot f = a) ∧
      ((∀ c ∈ a, c = '.') → splitextRoot f = f) := by
  have hmem : '.' ∈ f := by
    rw [hf]
    exact List.mem_append_right _ (List.mem_cons_self _ _)
  have hrev : f.reverse = b.reverse ++ '.' :: a.reverse := by
    rw [hf, List.reverse_append, List.reverse_cons, List.append_assoc,
      List.singleton_append]
  have htw : f.reverse.takeWhile (fun c => c ≠ '.') = b.reverse := by
    rw [hrev]
    apply takeWhile_eq_of_forall
    · intro c hc
      have hcb : c ∈ b := List.mem_reverse.mp hc
      simp only [decide_eq_true_eq]
      exact fun hcc => hb (hcc ▸ hcb)
    · simp
  have hflen : f.length = a.length + b.length + 1 := by
    rw [hf]
    simp
    omega
  have hroot : f.take (f.length - (f.reverse.takeWhile (fun c => c ≠ '.')).length - 1) = a := by
    rw [htw, List.length_reverse]
    have hidx : f.length - b.length - 1 = a.length := by omega
    rw [hidx, hf]
    exact List.take_left a ('.' :: b)
  constructor
  · intro hex
    have hany : a.any (fun c => c ≠ '.') = true := by
      simp only [List.any_eq_true, decide_eq_true_eq]
      exact hex
    simp only [splitextRoot]
    rw [if_pos hmem, hroot, if_pos hany]
  · intro hall
    have hany : a.any (fun c => c ≠ '.') = false := by
      rw [Bool.eq_false_iff]
      intro hc
      obtain ⟨c, hcmem, hcc⟩ := List.any_eq_true.mp hc
      simp only [decide_eq_true_eq] at hcc
      exact hcc (hall c hcmem)
    simp only [splitextRoot]
    rw [if_pos hmem, hroot, if_neg (by rw [hany]; simp)]

theorem dictLookup_insertAppend {κ α : Type} [DecidableEq κ] :
    ∀ (l : List (κ × List α)) (k k' : κ) (v : α),
      dictLookup k (insertAppend l k' v)
        = if k' = k then some ((dictLookup k l).getD [] ++ [v])
          else dictLookup k l := by
  intro l
  induction l with
  | nil =>
    intro k k' v
    by_cases h : k' = k
    · rw [if_pos h]
      show dictLookup k [(k', [v])] = _
      rw [dictLookup_cons, if_pos h]
      simp [dictLookup]
    · rw [if_neg h]
      show dictLookup k [(k', [v])] = dictLookup k []
      rw [dictLookup_cons, if_neg h]
  | cons e rest ih =>
    intro k k' v
    obtain ⟨k'', vs⟩ := e
    show dictLookup k (if k'' = k' then (k'', vs ++ [v]) :: rest
      else (k'', vs) :: insertAppend rest k' v) = _
    by_cases h1 : k'' = k'
    · rw [if_pos h1, dictLookup_cons]
      by_cases h2 : k'' = k
      · have hk : k' = k := by rw [← h1]; exact h2
        rw [if_pos h2, if_pos hk, dictLookup_cons, if_pos h2]
        simp
      · have hk : k' ≠ k := fun hc => h2 (by rw [h1, hc])
        rw [if_neg h2, if_neg hk, dictLookup_cons, if_neg h2]
    · rw [if_neg h1, dictLookup_cons]
      by_cases h2 : k'' = k
      · have hk : k' ≠ k := fun hc => h1 (h2.trans hc.symm)
        rw [if_pos h2, if_neg hk, dictLookup_cons, if_pos h2]
      · rw [if_neg h2, ih, dictLookup_cons, if_neg h2]

theorem pathJoin_inj (dir : List Char) {f g : List Char}
    (h : pathJoin dir f = pathJoin dir g) : f = g := by
  unfold pathJoin at h
  have h2 := List.append_cancel_left h
  injection h2

theorem bucketSpec_mem (dir pat : List Char) (files : List (List Char))
    (f k : List Char) (h : pathJoin dir f ∈ bucketSpec dir pat files k) :
    k = personId pat f ∧ isImageFile f = true := by
  obtain ⟨f', hf', heq⟩ := List.mem_map.mp h
  obtain ⟨_, hpred⟩ := List.mem_filter.mp hf'
  have hfe : f' = f := pathJoin_inj dir heq
  subst hfe
  rw [Bool.and_eq_true, decide_eq_true_eq] at hpred
  exact ⟨hpred.2.symm, hpred.1⟩

theorem bucketSpec_self_mem (dir pat : List Char) (files : List (List Char))
    (f : List Char) (hf : f ∈ files) (hi : isImageFile f = true) :
    pathJoin dir f ∈ bucketSpec dir pat files (personId pat f) := by
  apply List.mem_map_of_mem
  exact List.mem_filter.mpr ⟨hf, by simp [hi]⟩

/-- Loop invariant for `index_images_by_person`: after folding the step over
`files`, each key's bucket is what the accumulator had plus `bucketSpec`, and
a key is absent iff it was absent before and `bucketSpec` is empty. -/
theorem indexLoop_spec (image_dir pattern : List Char) :
    ∀ (files : List (List Char)) (acc : List (List Char × List (List Char)))
      (k : List Char),
      (dictLookup k (files.foldl (indexStep image_dir pattern) acc)).getD []
          = (dictLookup k acc).getD [] ++ bucketSpec image_dir pattern files k ∧
        (dictLookup k (files.foldl (indexStep image_dir pattern) acc) = none
          ↔ dictLookup k acc = none ∧ bucketSpec image_dir pattern files k = []) := by
  intro files
  induction files with
  | nil =>
    intro acc k
    exact ⟨by simp [bucketSpec], by simp [bucketSpec]⟩
  | cons f rest ih =>
    intro acc k
    rw [List.foldl_cons]
    by_cases hi : isImageFile f = true
    · have hstep : indexStep image_dir pattern acc f
          = insertAppend acc (personId pattern f) (pathJoin image_dir f) := by
        simp [indexStep, hi]
      rw [hstep]
      obtain ⟨ih1, ih2⟩ :=
        ih (insertAppend acc (personId pattern f) (pathJoin image_dir f)) k
      by_cases hk : personId pattern f = k
      · have hbucket : bucketSpec image_dir pattern (f :: rest) k
            = pathJoin image_dir f :: bucketSpec image_dir pattern rest k := by
          simp [bucketSpec, List.filter_cons, hi, hk]
        have hlook : dictLookup k
              (insertAppend acc (personId pattern f) (pathJoin image_dir f))
            = some ((dictLookup k acc).getD [] ++ [pathJoin image_dir f]) := by
          rw [dictLookup_insertAppend, if_pos hk]
        constructor
        · rw [ih1, hlook, hbucket]
          simp
        · rw [ih2, hlook, hbucket]
          simp
      · have hbucket : bucketSpec image_dir pattern (f :: rest) k
            = bucketSpec image_dir pattern rest k := by
          simp [bucketSpec, List.filter_cons, hi, hk]
        have hlook : dictLookup k
              (insertAppend acc (personId pattern f) (pathJoin image_dir f))
            = dictLookup k acc := by
          rw [dictLookup_insertAppend, if_neg hk]
        obtain ⟨ih1', ih2'⟩ :=
          ih (insertAppend acc (personId pattern f) (pathJoin image_dir f)) k
        rw [hbucket]
        exact ⟨by rw [ih1', hlook], by rw [ih2', hlook]⟩
    · have hstep : indexStep image_dir pattern acc f = acc := by
        simp [indexStep, hi]
      have hbucket : bucketSpec image_dir pattern (f :: rest) k
          = bucketSpec image_dir pattern rest k := by
        simp [bucketSpec, List.filter_cons, hi]
      rw [hstep, hbucket]
      exact ih acc k

theorem isImageFile_iff (f : List Char) :
    isImageFile f = true ↔
      ((∃ t, t ++ ".jpg".data = pyLower f) ∨ (∃ t, t ++ ".jpeg".data = pyLower f) ∨
        (∃ t, t ++ ".png".data = pyLower f)) := by
  unfold isImageFile
  simp only [Bool.or_eq_true, List.isSuffixOf_iff_suffix, List.IsSuffix]
  rw [or_assoc]

/-- C5: a file is indexed iff its lower-cased name ends in `.jpg`, `.jpeg` or
`.png`; each indexed file lands in exactly the bucket of its person id; the
person id is the prefix before the first occurrence of `"__"` when the
pattern occurs, and the `os.path.splitext` root otherwise; a non-existent
directory yields the empty mapping. -/
theorem index_images_by_person_spec (image_dir : List Char) :
    (∀ pattern, index_images_by_person image_dir none pattern = []) ∧
    (∀ (files : List (List Char)) (pattern k : List Char),
      (dictLookup k (index_images_by_person image_dir (some files) pattern)).getD []
          = bucketSpec image_dir pattern files k ∧
        (dictLookup k (index_images_by_person image_dir (some files) pattern) = none
          ↔ bucketSpec image_dir pattern files k = [])) ∧
    (∀ (files : List (List Char)) (pattern f k : List Char),
      pathJoin image_dir f ∈ bucketSpec image_dir pattern files k →
        k = personId pattern f ∧ isImageFile f = true) ∧
    (∀ (files : List (List Char)) (pattern f : List Char), f ∈ files →
      (isImageFile f = true ↔
        pathJoin image_dir f ∈ bucketSpec image_dir pattern files (personId pattern f))) ∧
    (∀ f : List Char, isImageFile f = true ↔
      ((∃ t, t ++ ".jpg".data = pyLower f) ∨ (∃ t, t ++ ".jpeg".data = pyLower f) ∨
        (∃ t, t ++ ".png".data = pyLower f))) ∧
    (∀ f : List Char, containsPat "__".data f = true →
      (∃ rest, f = personId "__".data f ++ "__".data ++ rest) ∧
      (∀ t₁ t₂, f = t₁ ++ "__".data ++ t₂ →
        (personId "__".data f).length ≤ t₁.length)) ∧
    (∀ f : List Char, containsPat "__".data f = false →
      personId "__".data f = splitextRoot f) ∧
    (∀ f a b : List Char, f = a ++ '.' :: b → '.' ∉ b →
      ((∃ c ∈ a, c ≠ '.') → splitextRoot f = a) ∧
        ((∀ c ∈ a, c = '.') → splitextRoot f = f)) ∧
    (∀ f : List Char, '.' ∉ f → splitextRoot f = f) := by
  refine ⟨fun _ => rfl, ?_, ?_, ?_, isImageFile_iff, ?_, ?_,
    (fun f a b hf hb => splitextRoot_spec f a b hf hb), splitextRoot_no_dot⟩
  · intro files pattern k
    obtain ⟨h1, h2⟩ := indexLoop_spec image_dir pattern files [] k
    have hix : index_images_by_person image_dir (some files) pattern
        = files.foldl (indexStep image_dir pattern) [] := rfl
    constructor
    · rw [hix, h1]
      rfl
    · rw [hix, h2]
      simp [dictLookup]
  · intro files pattern f k h
    exact bucketSpec_mem image_dir pattern files f k h
  · intro files pattern f hf
    constructor
    · intro hi
      exact bucketSpec_self_mem image_dir pattern files f hf hi
    · intro h
      exact (bucketSpec_mem image_dir pattern files f _ h).2
  · intro f h
    have hpid : personId "__".data f = splitHead "__".data f := by
      simp [personId, h]
    rw [hpid]
    exact ⟨splitHead_decomp "__".data f h, fun t₁ t₂ ht => splitHead_min "__".data f t₁ t₂ ht⟩
  · intro f h
    simp [personId, h]

/-- Concrete instantiation of `index_images_by_person_spec`: a missing
directory and a filename with a `"__"` separator. -/
theorem index_images_by_person_spec_witness :
    (index_images_by_person "refs".data none "__".data = []) ∧
    ((∃ rest, "alice__01.jpg".data
        = personId "__".data "alice__01.jpg".data ++ "__".data ++ rest) ∧
      (∀ t₁ t₂, "alice__01.jpg".data = t₁ ++ "__".data ++ t₂ →
        (personId "__".data "alice__01.jpg".data).length ≤ t₁.length)) :=
  ⟨(index_images_by_person_spec "refs".data).1 "__".data,
    (index_images_by_person_spec "refs".data).2.2.2.2.2.1 "alice__01.jpg".data
      (by decide)⟩

/-- A BGR pixel as read from the webcam. -/
abbrev Pixel : Type := ℕ × ℕ × ℕ

/-- A camera frame: a matrix of BGR pixels. -/
abbrev Frame : Type := List (List Pixel)

/-- A detection rectangle `(x, y, w, h)` as returned by
`detectMultiScale`. -/
abbrev Rect : Type := ℕ × ℕ × ℕ × ℕ

/-- `lambda rect: rect[2] * rect[3]`, the key of the `max` call. -/
def rectArea (r : Rect) : ℕ := r.2.2.1 * r.2.2.2

/-- Python `max(iterable, key=...)`: scan keeping the first element whose key
is strictly greater than the best so far. -/
def maxLoop {α : Type} (key : α → ℕ) (best : α) : List α → α
  | [] => best
  | x :: rest => maxLoop key (if key best < key x then x else best) rest

/-- `frame[y:y+h, x:x+w]` for `(x, y, w, h)`. -/
def cropFrame (frame : Frame) (r : Rect) : Frame :=
  ((frame.drop r.2.1).take r.2.2.2).map (fun row => (row.drop r.1).take r.2.2.1)

/-- `cv2.cvtColor(img, cv2.COLOR_BGR2RGB)`: swap the B and R channels. -/
def rgbOfBgr (img : Frame) : Frame :=
  img.map (fun row => row.map (fun p => (p.2.2, p.2.1, p.1)))

/-- `detect_and_crop_face(frame)` from `utils.py`.  `detectFaces` stands for
the Haar cascade's `detectMultiScale` call (a third-party black box). -/
def detect_and_crop_face (detectFaces : Frame → List Rect) (frame : Frame) :
    Option Frame × Option Rect :=
  match detectFaces frame with
  | [] => (none, none)
  | f :: rest =>
      let best := maxLoop rectArea f rest
      (some (rgbOfBgr (cropFrame frame best)), some best)

theorem maxLoop_cons {α : Type} (key : α → ℕ) (best x : α) (rest : List α) :
    maxLoop key best (x :: rest)
      = maxLoop key (if key best < key x then x else best) rest := rfl

theorem maxLoop_mem {α : Type} (key : α → ℕ) :
    ∀ (l : List α) (best : α), maxLoop key best l = best ∨ maxLoop key best l ∈ l := by
  intro l
  induction l with
  | nil => intro best; exact Or.inl rfl
  | cons x rest ih =>
    intro best
    rw [maxLoop_cons]
    by_cases h : key best < key x
    · rw [if_pos h]
      rcases ih x with h' | h'
      · exact Or.inr (by rw [h']; exact List.mem_cons_self _ _)
      · exact Or.inr (List.mem_cons_of_mem _ h')
    · rw [if_neg h]
      rcases ih best with h' | h'
      · exact Or.inl h'
      · exact Or.inr (List.mem_cons_of_mem _ h')

theorem maxLoop_ge_best {α : Type} (key : α → ℕ) :
    ∀ (l : List α) (best : α), key best ≤ key (maxLoop key best l) := by
  intro l
  induction l with
  | nil => intro best; exact le_refl _
  | cons x rest ih =>
    intro best
    rw [maxLoop_cons]
    by_cases h : key best < key x
    · rw [if_pos h]
      exact le_of_lt (lt_of_lt_of_le h (ih x))
    · rw [if_neg h]
      exact ih best

theorem maxLoop_ge_mem {α : Type} (key : α → ℕ) :
    ∀ (l : List α) (best x : α), x ∈ l → key x ≤ key (maxLoop key best l) := by
  intro l
  induction l with
  | nil => intro best x hx; exact absurd hx (List.not_mem_nil _)
  | cons y rest ih =>
    intro best x hx
    rw [maxLoop_cons]
    rcases List.mem_cons.mp hx with rfl | hmem
    · by_cases h : key best < key x
      · rw [if_pos h]
        exact maxLoop_ge_best key rest x
      · rw [if_neg h]
        exact le_trans (le_of_not_lt h) (maxLoop_ge_best key rest best)
    · by_cases h : key best < key y
      · rw [if_pos h]
        exact ih y x hmem
      · rw [if_neg h]
        exact ih best x hmem

/-- C3: `detect_and_crop_face` returns `(None, None)` exactly when the
cascade found no face; otherwise it returns the (non-`None`) RGB crop of a
detected face of maximal area `w*h`, together with that bounding box. -/
theorem detect_and_crop_face_spec (detectFaces : Frame → List Rect)
    (frame : Frame) :
    (detectFaces frame = [] →
      detect_and_crop_face detectFaces frame = (none, none)) ∧
    (detectFaces frame ≠ [] →
      ∃ bbox ∈ detectFaces frame,
        detect_and_crop_face detectFaces frame
            = (some (rgbOfBgr (cropFrame frame bbox)), some bbox) ∧
          (detect_and_crop_face detectFaces frame).1 ≠ none ∧
          ∀ r ∈ detectFaces frame, rectArea r ≤ rectArea bbox) := by
  constructor
  · intro h
    unfold detect_and_crop_face
    rw [h]
  · intro h
    obtain ⟨f, rest, hf⟩ := List.exists_cons_of_ne_nil h
    have hd : detect_and_crop_face detectFaces frame
        = (some (rgbOfBgr (cropFrame frame (maxLoop rectArea f rest))),
          some (maxLoop rectArea f rest)) := by
      unfold detect_and_crop_face
      rw [hf]
    have hbmem : maxLoop rectArea f rest ∈ detectFaces frame := by
      rw [hf]
      rcases maxLoop_mem rectArea rest f with h' | h'
      · rw [h']
        exact List.mem_cons_self _ _
      · exact List.mem_cons_of_mem _ h'
    refine ⟨maxLoop rectArea f rest, hbmem, hd, ?_, ?_⟩
    · rw [hd]
      simp
    · intro r hr
      rw [hf] at hr
      rcases List.mem_cons.mp hr with rfl | hmem
      · exact maxLoop_ge_best rectArea rest r
      · exact maxLoop_ge_mem rectArea rest f r hmem

/-- Concrete instantiation of `detect_and_crop_face_spec` on a detector that
reports two faces. -/
theorem detect_and_crop_face_spec_witness :
    ((fun (_ : Frame) => [((0, 0, 2, 2) : Rect), (1, 1, 3, 3)]) [] ≠ []) ∧
      (∃ bbox ∈ (fun (_ : Frame) => [((0, 0, 2, 2) : Rect), (1, 1, 3, 3)]) [],
        detect_and_crop_face (fun _ => [(0, 0, 2, 2), (1, 1, 3, 3)]) []
            = (some (rgbOfBgr (cropFrame [] bbox)), some bbox) ∧
          (detect_and_crop_face (fun _ => [(0, 0, 2, 2), (1, 1, 3, 3)]) []).1 ≠ none ∧
          ∀ r ∈ (fun (_ : Frame) => [((0, 0, 2, 2) : Rect), (1, 1, 3, 3)]) [],
            rectArea r ≤ rectArea bbox) :=
  ⟨by decide,
    (detect_and_crop_face_spec (fun _ => [(0, 0, 2, 2), (1, 1, 3, 3)]) []).2
      (by decide)⟩

/-- The `for attempt in range(max_retries):` loop of `initialize_camera`:
structural recursion on the remaining number of attempts. -/
def initLoop (tryOpen : ℕ → Bool) : ℕ → ℕ → Option ℕ
  | 0, _ => none
  | fuel + 1, attempt =>
      if tryOpen attempt then some attempt else initLoop tryOpen fuel (attempt + 1)

/-- `initialize_camera(camera_index, max_retries)` from `app.py`.
`tryOpen i` models `cv2.VideoCapture(camera_index).isOpened()` on the `i`-th
attempt; `some i` stands for returning the capture handle opened on attempt
`i`, and `none` models the `sys.exit(1)` after all attempts failed. -/
def initialize_camera (tryOpen : ℕ → Bool) (max_retries : ℕ) : Option ℕ :=
  initLoop tryOpen max_retries 0

/-- `initialize_camera` with its default argument `max_retries=5`. -/
def initialize_camera_default (tryOpen : ℕ → Bool) : Option ℕ :=
  initialize_camera tryOpen 5

theorem initLoop_spec (tryOpen : ℕ → Bool) :
    ∀ fuel start : ℕ,
      (∀ i, initLoop tryOpen fuel start = some i ↔
        (start ≤ i ∧ i < start + fuel ∧ tryOpen i = true ∧
          ∀ j, start ≤ j → j < i → tryOpen j = false)) ∧
      (initLoop tryOpen fuel start = none ↔
        ∀ i, start ≤ i → i < start + fuel → tryOpen i = false) := by
  intro fuel
  induction fuel with
  | zero =>
    intro start
    constructor
    · intro i
      constructor
      · intro h
        exact absurd h (by simp [initLoop])
      · rintro ⟨h1, h2, -, -⟩
        omega
    · constructor
      · intro _ i h1 h2
        omega
      · intro _
        rfl
  | succ fuel ih =>
    intro start
    obtain ⟨ihs, ihn⟩ := ih (start + 1)
    constructor
    · intro i
      show (if tryOpen start then some start else initLoop tryOpen fuel (start + 1))
          = some i ↔ _
      cases h : tryOpen start with
      | true =>
        rw [if_pos (by simp [h])]
        constructor
        · intro hi
          have : start = i := Option.some.inj hi
          subst this
          exact ⟨le_refl _, by omega, h, fun j h1 h2 => absurd (lt_of_le_of_lt h1 h2) (lt_irrefl _)⟩
        · rintro ⟨h1, -, h3, h4⟩
          rcases Nat.eq_or_lt_of_le h1 with rfl | hlt
          · rfl
          · exact absurd h (by rw [h4 start (le_refl _) hlt]; simp)
      | false =>
        rw [if_neg (by simp [h])]
        rw [ihs i]
        constructor
        · rintro ⟨h1, h2, h3, h4⟩
          refine ⟨by omega, by omega, h3, fun j hj1 hj2 => ?_⟩
          rcases Nat.eq_or_lt_of_le hj1 with rfl | hlt
          · exact h
          · exact h4 j hlt hj2
        · rintro ⟨h1, h2, h3, h4⟩
          have hne : i ≠ start := fun hc => by rw [hc, h] at h3; exact Bool.noConfusion h3
          refine ⟨by omega, by omega, h3, fun j hj1 hj2 => h4 j (by omega) hj2⟩
    · show (if tryOpen start then some start else initLoop tryOpen fuel (start + 1))
          = none ↔ _
      cases h : tryOpen start with
      | true =>
        rw [if_pos (by simp [h])]
        constructor
        · intro hc
          exact Option.noConfusion hc
        · intro hall
          exact absurd h (by rw [hall start (le_refl _) (by omega)]; simp)
      | false =>
        rw [if_neg (by simp [h])]
        rw [ihn]
        constructor
        · intro hall i h1 h2
          rcases Nat.eq_or_lt_of_le h1 with rfl | hlt
          · exact h
          · exact hall i hlt (by omega)
        · intro hall i h1 h2
          exact hall i (by omega) (by omega)

/-- C4: the retry loop is bounded: a returned handle comes from the first
successful attempt, whose index is below `max_retries`; if every one of the
`max_retries` attempts fails the function exits with status 1 (modelled
`none`); the default retry count is 5. -/
theorem initialize_camera_spec (tryOpen : ℕ → Bool) (max_retries : ℕ) :
    (∀ i, initialize_camera tryOpen max_retries = some i ↔
      (i < max_retries ∧ tryOpen i = true ∧ ∀ j, j < i → tryOpen j = false)) ∧
    (initialize_camera tryOpen max_retries = none ↔
      ∀ i, i < max_retries → tryOpen i = false) ∧
    initialize_camera_default tryOpen = initialize_camera tryOpen 5 := by
  obtain ⟨hs, hn⟩ := initLoop_spec tryOpen max_retries 0
  refine ⟨?_, ?_, rfl⟩
  · intro i
    rw [show initialize_camera tryOpen max_retries = initLoop tryOpen max_retries 0 from rfl, hs i]
    constructor
    · rintro ⟨-, h2, h3, h4⟩
      exact ⟨by omega, h3, fun j hj => h4 j (Nat.zero_le _) hj⟩
    · rintro ⟨h1, h2, h3⟩
      exact ⟨Nat.zero_le _, by omega, h2, fun j _ hj => h3 j hj⟩
  · rw [show initialize_camera tryOpen max_retries = initLoop tryOpen max_retries 0 from rfl, hn]
    constructor
    · intro hall i hi
      exact hall i (Nat.zero_le _) (by omega)
    · intro hall i _ hi
      exact hall i (by omega)

/-- Concrete instantiation of `initialize_camera_spec`: the camera opens on
the third attempt, and a camera that never opens exhausts all five default
retries. -/
theorem initialize_camera_spec_witness :
    (initialize_camera (fun i => decide (i = 2)) 5 = some 2 ↔
      (2 < 5 ∧ decide ((2 : ℕ) = 2) = true ∧ ∀ j, j < 2 → decide (j = 2) = false)) ∧
    (initialize_camera (fun _ => false) 5 = none ↔
      ∀ i, i < 5 → (fun (_ : ℕ) => false) i = false) :=
  ⟨(initialize_camera_spec (fun i => decide (i = 2)) 5).1 2,
    (initialize_camera_spec (fun _ => false) 5).2.1⟩

/-- C6: `preprocess_image` propagates `None`; otherwise it returns exactly
the resized image with every pixel divided by 255, so that whenever the
library resize delivers an `img_size × img_size` image of `uint8` pixels
(values ≤ 255), the output has those dimensions and all components in
`[0, 1]`. -/
theorem preprocess_image_spec (resize : Img → ℕ → Img) (img_size : ℕ) :
    (preprocess_image resize none img_size = none) ∧
    (∀ im : Img,
      preprocess_image resize (some im) img_size
          = some ((resize im img_size).map
              (fun row => row.map (fun (p : ℕ) => (p : ℚ) / 255))) ∧
        (((resize im img_size).length = img_size ∧
            ∀ row ∈ resize im img_size, row.length = img_size) →
          ((preprocess_image resize (some im) img_size).getD []).length = img_size ∧
            ∀ row ∈ (preprocess_image resize (some im) img_size).getD [],
              row.length = img_size) ∧
        ((∀ row ∈ resize im img_size, ∀ p ∈ row, p ≤ 255) →
          ∀ row ∈ (preprocess_image resize (some im) img_size).getD [],
            ∀ q ∈ row, 0 ≤ q ∧ q ≤ 1)) := by
  refine ⟨rfl, ?_⟩
  intro im
  have hout : (preprocess_image resize (some im) img_size).getD []
      = (resize im img_size).map (fun row => row.map (fun (p : ℕ) => (p : ℚ) / 255)) := rfl
  refine ⟨rfl, ?_, ?_⟩
  · rintro ⟨hlen, hrows⟩
    rw [hout]
    constructor
    · rw [List.length_map]
      exact hlen
    · intro row hrow
      obtain ⟨row', hrow', hre⟩ := List.mem_map.mp hrow
      rw [← hre, List.length_map]
      exact hrows row' hrow'
  · intro hpx row hrow q hq
    rw [hout] at hrow
    obtain ⟨row', hrow', hre⟩ := List.mem_map.mp hrow
    rw [← hre] at hq
    obtain ⟨p, hp, hpe⟩ := List.mem_map.mp hq
    rw [← hpe]
    constructor
    · exact div_nonneg (Nat.cast_nonneg p) (by norm_num)
    · rw [div_le_one (by norm_num)]
      exact_mod_cast hpx row' hrow' p hp

/-- Concrete instantiation of `preprocess_image_spec` with a 1×1 resize. -/
theorem preprocess_image_spec_witness :
    ((((fun (_ : Img) (_ : ℕ) => ([[200]] : Img)) ([[3]] : Img) 1).length = 1 ∧
        ∀ row ∈ (fun (_ : Img) (_ : ℕ) => ([[200]] : Img)) ([[3]] : Img) 1,
          row.length = 1) →
      ((preprocess_image (fun _ _ => [[200]]) (some [[3]]) 1).getD []).length = 1 ∧
        ∀ row ∈ (preprocess_image (fun _ _ => [[200]]) (some [[3]]) 1).getD [],
          row.length = 1) ∧
    ((∀ row ∈ (fun (_ : Img) (_ : ℕ) => ([[200]] : Img)) ([[3]] : Img) 1,
        ∀ p ∈ row, p ≤ 255) →
      ∀ row ∈ (preprocess_image (fun _ _ => [[200]]) (some [[3]]) 1).getD [],
        ∀ q ∈ row, 0 ≤ q ∧ q ≤ 1) :=
  ⟨((preprocess_image_spec (fun _ _ => [[200]]) 1).2 [[3]]).2.1,
    ((preprocess_image_spec (fun _ _ => [[200]]) 1).2 [[3]]).2.2⟩

/-- The exceptions `TRTInfer.__init__` can raise: `RuntimeError` on a failed
`tensorrt`/`pycuda` import, `FileNotFoundError` on a missing engine file,
and `RuntimeError('Failed to deserialize engine')`. -/
inductive TRTError : Type where
  | importFailed : TRTError
  | engineNotFound : TRTError
  | deserializeFailed : TRTError
deriving DecidableEq, Repr

/-- `TRTInfer.__init__(engine_path, ...)` from `trt_inference.py`, up to and
including the deserialisation check.  `trt_available` models `trt is not
None` (whether the module-level `import tensorrt / pycuda` succeeded),
`engine_exists` models `os.path.exists(engine_path)`, and `deserialized`
models the result of `runtime.deserialize_cuda_engine` (`none` for a `None`
return).  On success the constructed object holds the engine; the remaining
buffer bookkeeping raises nothing. -/
def TRTInfer_init {α : Type} (trt_available engine_exists : Bool)
    (deserialized : Option α) : Except TRTError α :=
  if trt_available = false then .error .importFailed
  else if engine_exists = false then .error .engineNotFound
  else
    match deserialized with
    | none => .error .deserializeFailed
    | some engine => .ok engine

/-- C7: construction raises `RuntimeError` exactly when the import failed,
`FileNotFoundError` exactly when the import succeeded but the engine file is
missing, `RuntimeError('Failed to deserialize engine')` exactly when the
file exists but deserialisation returns `None`, and succeeds otherwise
(returning the deserialised engine). -/
theorem TRTInfer_init_spec {α : Type} (trt_available engine_exists : Bool)
    (deserialized : Option α) :
    (TRTInfer_init trt_available engine_exists deserialized
        = .error .importFailed ↔ trt_available = false) ∧
    (TRTInfer_init trt_available engine_exists deserialized
        = .error .engineNotFound ↔
      (trt_available = true ∧ engine_exists = false)) ∧
    (TRTInfer_init trt_available engine_exists deserialized
        = .error .deserializeFailed ↔
      (trt_available = true ∧ engine_exists = true ∧ deserialized = none)) ∧
    ((∃ e, TRTInfer_init trt_available engine_exists deserialized = .ok e) ↔
      (trt_available = true ∧ engine_exists = true ∧ deserialized ≠ none)) ∧
    (∀ e, deserialized = some e → trt_available = true → engine_exists = true →
      TRTInfer_init trt_available engine_exists deserialized = .ok e) := by
  cases trt_available <;> cases engine_exists <;> cases deserialized <;>
    simp [TRTInfer_init]

/-- Concrete instantiation of `TRTInfer_init_spec`: a well-formed
environment deserialises engine `7`. -/
theorem TRTInfer_init_spec_witness :
    ((some (7 : ℕ)) = some 7) ∧ (true = true) ∧
      TRTInfer_init true true (some (7 : ℕ)) = .ok 7 :=
  ⟨rfl, rfl, (TRTInfer_init_spec true true (some (7 : ℕ))).2.2.2.2 7 rfl rfl rfl⟩

/-- The non-interactive `while time.time() - start < timeout:` read loop of
`capture_image`: scan the reads that occur before the timeout, skip invalid
ones (`ret == False`, the `continue` branch) and break at the first valid
frame. -/
def readLoop {φ : Type} : List (Option φ) → Option φ
  | [] => none
  | none :: rest => readLoop rest
  | some frame :: _ => some frame

/-- `capture_image(filename, camera_index, timeout, interactive=False)` from
`camera_utils.py`, on the local (non-Colab) path.  `opened` models
`cap.isOpened()`; `reads` is the sequence of `cap.read()` results issued
before the timeout expires.  `.ok` carries the returned filename and the
frame written to it by `cv2.imwrite`; `.error` carries the raised
exception's message. -/
def capture_image {φ : Type} (opened : Bool) (reads : List (Option φ))
    (filename : String) : Except String (String × φ) :=
  if opened = false then .error "Could not open webcam"
  else
    match readLoop reads with
    | none => .error "Capture failed: no frame received from webcam"
    | some frame => .ok (filename, frame)

theorem readLoop_eq_none {φ : Type} :
    ∀ reads : List (Option φ), readLoop reads = none ↔ ∀ x ∈ reads, x = none := by
  intro reads
  induction reads with
  | nil => simp [readLoop]
  | cons r rest ih =>
    cases r with
    | none => simp [readLoop, ih]
    | some f => simp [readLoop]

theorem readLoop_mem {φ : Type} :
    ∀ (reads : List (Option φ)) (frame : φ),
      readLoop reads = some frame → some frame ∈ reads := by
  intro reads
  induction reads with
  | nil => intro frame h; exact Option.noConfusion h
  | cons r rest ih =>
    intro frame h
    cases r with
    | none => exact List.mem_cons_of_mem _ (ih frame h)
    | some f =>
      have : some f = some frame := h
      rw [← this]
      exact List.mem_cons_self _ _

/-- C10: on the local non-interactive path, a successful capture returns
exactly the filename it was given together with the first valid frame
received (which is written to that file), and an exception is raised iff the
webcam failed to open or every read before the timeout was invalid. -/
theorem capture_image_spec {φ : Type} (opened : Bool)
    (reads : List (Option φ)) (filename : String) :
    (∀ r, capture_image opened reads filename = .ok r → r.1 = filename) ∧
    (opened = true → ∀ frame, readLoop reads = some frame →
      capture_image opened reads filename = .ok (filename, frame) ∧
        some frame ∈ reads) ∧
    ((∃ msg, capture_image opened reads filename = .error msg) ↔
      (opened = false ∨ readLoop reads = none)) ∧
    (readLoop reads = none ↔ ∀ x ∈ reads, x = none) := by
  refine ⟨?_, ?_, ?_, readLoop_eq_none reads⟩
  · intro r h
    cases hop : opened with
    | false =>
      unfold capture_image at h
      rw [hop] at h
      simp at h
    | true =>
      unfold capture_image at h
      rw [hop] at h
      rw [if_neg (by simp)] at h
      cases hr : readLoop reads with
      | none =>
        rw [hr] at h
        exact absurd h (by simp)
      | some frame =>
        rw [hr] at h
        rw [← Except.ok.inj h]
  · intro hop frame hr
    subst hop
    refine ⟨?_, readLoop_mem reads frame hr⟩
    unfold capture_image
    rw [if_neg (by simp), hr]
  · cases hop : opened with
    | false =>
      constructor
      · intro _
        exact Or.inl rfl
      · intro _
        refine ⟨"Could not open webcam", ?_⟩
        unfold capture_image
        rfl
    | true =>
      cases hr : readLoop reads with
      | none =>
        constructor
        · intro _
          exact Or.inr rfl
        · intro _
          refine ⟨"Capture failed: no frame received from webcam", ?_⟩
          unfold capture_image
          rw [if_neg (by simp), hr]
      | some frame =>
        constructor
        · rintro ⟨msg, hmsg⟩
          unfold capture_image at hmsg
          rw [if_neg (by simp), hr] at hmsg
          exact absurd hmsg (by simp)
        · rintro (hc | hc)
          · exact absurd hc (by simp)
          · exact absurd hc (by simp)

/-- Concrete instantiation of `capture_image_spec`: the second read delivers
a frame. -/
theorem capture_image_spec_witness :
    (true = true) ∧
      (capture_image true [none, some 42] "photo.jpg" = .ok ("photo.jpg", (42 : ℕ)) ∧
        some (42 : ℕ) ∈ [none, some 42]) :=
  ⟨rfl, (capture_image_spec true [none, some (42 : ℕ)] "photo.jpg").2.1 rfl 42 rfl⟩

/-- Concrete instantiation of `identify_face_empty_gallery`. -/
theorem identify_face_empty_gallery_witness :
    identify_face [1] [] 2 = ("UNKNOWN", DistV.inf, "REJECT") ∧
      (identify_face [1] [] 2).2.2 ≠ "MATCH" :=
  identify_face_empty_gallery [1] 2
